import Mathlib

/-
  Verification of the AudioMid audio-capture core.

  Shallow embedding of:
    - src/native/audio-capture/audio_buffer.{h,cpp}   (bounded byte-budgeted buffer)
    - src/native/audio-capture/audio_format_converter.{h,cpp} (format conversion)

  Modelling conventions:
    - size_t / uint32_t / uint16_t / uint64_t are modelled as Nat.  The byte
      counter never underflows (the accounting invariant proved below shows each
      subtraction is exact), and overflow of the 64-bit counter is unreachable
      for any physically realisable sequence of pushes, so no explicit 2^64
      wrap is modelled.
    - int16_t / int32_t sample values are modelled as Int; narrowing casts are
      modelled explicitly by two's-complement reduction (toInt16 below).
    - sizeof(AudioChunk), the header overhead the source adds per PCM16 chunk
      in AudioBuffer::GetChunkSize, is platform dependent; it is carried as an
      explicit parameter hdr everywhere.
    - The wall-clock timestamp read in AudioBuffer::Push is an input of the
      model (parameter now).
    - 32-bit float samples are modelled as exact rationals; the bit-level
      reinterpretation of a 4-byte little-endian word as a float is carried as
      an explicit parameter floatOfBits, since no verified statement depends
      on a concrete float bit pattern.
-/

set_option maxRecDepth 8000

namespace AudioCapture

/-- A canonical PCM16 chunk (struct AudioChunk in audio_buffer.h): 16-bit
signed samples, capture timestamp, sample rate and channel count. -/
structure AudioChunk where
  data : List Int
  timestamp : Nat
  sampleRate : Nat
  channels : Nat
deriving DecidableEq, Repr

/-- A canonical float chunk (struct Float32AudioChunk in audio_buffer.h); the
float sample type is kept abstract as F, since the buffer never inspects
sample values. -/
structure Float32AudioChunk (F : Type) where
  data : List F
  timestamp : Nat
  sampleRate : Nat
  channels : Nat
deriving DecidableEq, Repr

/-- Buffer state (class AudioBuffer): two FIFO queues, the byte budget
maxSizeBytes_ and the running byte counter currentSizeBytes_. -/
structure AudioBuffer (F : Type) where
  chunks : List AudioChunk
  float32Chunks : List (Float32AudioChunk F)
  maxSizeBytes : Nat
  currentSizeBytes : Nat
deriving DecidableEq, Repr

/-- Default byte budget of the AudioBuffer constructor (5 MiB). -/
def defaultMaxSizeBytes : Nat := 5 * 1024 * 1024

/-- A fresh buffer (the AudioBuffer constructor): empty queues, zero counter. -/
def mkBuffer (F : Type) (maxSizeBytes : Nat) : AudioBuffer F :=
  { chunks := [], float32Chunks := [], maxSizeBytes := maxSizeBytes, currentSizeBytes := 0 }

/-- AudioBuffer::GetChunkSize: sizeof(AudioChunk) + data.size() * sizeof(int16_t).
hdr models the platform-dependent sizeof(AudioChunk). -/
def GetChunkSize (hdr : Nat) (chunk : AudioChunk) : Nat :=
  hdr + chunk.data.length * 2

/-- The while loop of AudioBuffer::TrimToSize: pop the front PCM16 chunk and
subtract its size while the counter exceeds the budget and the queue is
non-empty. -/
def trimGo (hdr maxS : Nat) : List AudioChunk → Nat → List AudioChunk × Nat
  | [], cur => ([], cur)
  | c :: rest, cur =>
      if maxS < cur then trimGo hdr maxS rest (cur - GetChunkSize hdr c)
      else (c :: rest, cur)

/-- AudioBuffer::TrimToSize. -/
def TrimToSize {F : Type} (hdr : Nat) (s : AudioBuffer F) : AudioBuffer F :=
  { s with
      chunks := (trimGo hdr s.maxSizeBytes s.chunks s.currentSizeBytes).1,
      currentSizeBytes := (trimGo hdr s.maxSizeBytes s.chunks s.currentSizeBytes).2 }

/-- AudioBuffer::Push: no-op on empty input, otherwise append a timestamped
chunk, add its byte size to the counter and trim. -/
def Push {F : Type} (hdr : Nat) (audioData : List Int)
    (sampleRate channels now : Nat) (s : AudioBuffer F) : AudioBuffer F :=
  if audioData.isEmpty then s
  else
    let chunk : AudioChunk :=
      { data := audioData, timestamp := now, sampleRate := sampleRate, channels := channels }
    TrimToSize hdr
      { s with
          chunks := s.chunks ++ [chunk],
          currentSizeBytes := s.currentSizeBytes + GetChunkSize hdr chunk }

/-- AudioBuffer::PushFloat32: same contract; byte size is
audioData.size() * sizeof(float) = 4 * length, no header overhead. -/
def PushFloat32 {F : Type} (hdr : Nat) (audioData : List F)
    (sampleRate channels now : Nat) (s : AudioBuffer F) : AudioBuffer F :=
  if audioData.isEmpty then s
  else
    let chunk : Float32AudioChunk F :=
      { data := audioData, timestamp := now, sampleRate := sampleRate, channels := channels }
    TrimToSize hdr
      { s with
          float32Chunks := s.float32Chunks ++ [chunk],
          currentSizeBytes := s.currentSizeBytes + audioData.length * 4 }

/-- AudioBuffer::Pop: remove and return the front PCM16 chunk, subtracting its
size from the counter; none if the queue is empty. -/
def Pop {F : Type} (hdr : Nat) (s : AudioBuffer F) :
    Option (AudioChunk × AudioBuffer F) :=
  match s.chunks with
  | [] => none
  | c :: rest =>
      some (c, { s with chunks := rest,
                        currentSizeBytes := s.currentSizeBytes - GetChunkSize hdr c })

/-- AudioBuffer::PopMultiple: the while loop pops the front chunk while the
queue is non-empty and fewer than maxChunks chunks were taken. -/
def PopMultiple {F : Type} (hdr : Nat) :
    Nat → AudioBuffer F → List AudioChunk × AudioBuffer F
  | 0, s => ([], s)
  | Nat.succ n, s =>
      match s.chunks with
      | [] => ([], s)
      | c :: rest =>
          let s1 : AudioBuffer F :=
            { s with chunks := rest,
                     currentSizeBytes := s.currentSizeBytes - GetChunkSize hdr c }
          let p := PopMultiple hdr n s1
          (c :: p.1, p.2)

/-- AudioBuffer::PopMultipleFloat32: symmetric loop on the float32 queue,
subtracting data.size() * sizeof(float) per chunk. -/
def PopMultipleFloat32 {F : Type} (hdr : Nat) :
    Nat → AudioBuffer F → List (Float32AudioChunk F) × AudioBuffer F
  | 0, s => ([], s)
  | Nat.succ n, s =>
      match s.float32Chunks with
      | [] => ([], s)
      | c :: rest =>
          let s1 : AudioBuffer F :=
            { s with float32Chunks := rest,
                     currentSizeBytes := s.currentSizeBytes - c.data.length * 4 }
          let p := PopMultipleFloat32 hdr n s1
          (c :: p.1, p.2)

/-- AudioBuffer::Clear: empty both queues and reset the counter. -/
def Clear {F : Type} (s : AudioBuffer F) : AudioBuffer F :=
  { s with chunks := [], float32Chunks := [], currentSizeBytes := 0 }

/-- AudioBuffer::GetSize. -/
def GetSize {F : Type} (s : AudioBuffer F) : Nat := s.currentSizeBytes

/-- AudioBuffer::IsEmpty: true iff the PCM16 queue is empty. -/
def IsEmpty {F : Type} (s : AudioBuffer F) : Bool := s.chunks.isEmpty

/-- AudioBuffer::SetMaxSize: change the budget, then trim. -/
def SetMaxSize {F : Type} (hdr maxSizeBytes : Nat) (s : AudioBuffer F) : AudioBuffer F :=
  TrimToSize hdr { s with maxSizeBytes := maxSizeBytes }

/-- Loop body of AudioBuffer::GetBufferedDurationMs: accumulate
data.size() / channels per chunk and remember the last sample rate.  The
per-chunk division is by chunk.channels with no guard; channels = 0 makes the
C++ execution undefined (division by zero), modelled here as none. -/
def durationFold : Option (Nat × Nat) → AudioChunk → Option (Nat × Nat)
  | none, _ => none
  | some (totalSamples, _), c =>
      if c.channels = 0 then none
      else some (totalSamples + c.data.length / c.channels, c.sampleRate)

/-- AudioBuffer::GetBufferedDurationMs: 0 for an empty queue; otherwise
(sum over chunks of data.size()/channels) * 1000 / lastSampleRate, with an
early 0 when the last sample rate is 0.  none marks the division-by-zero
execution (some chunk with channels = 0), which in C++ is undefined. -/
def GetBufferedDurationMs {F : Type} (s : AudioBuffer F) : Option Nat :=
  if s.chunks = [] then some 0
  else
    match s.chunks.foldl durationFold (some (0, 0)) with
    | none => none
    | some (totalSamples, avgSampleRate) =>
        if avgSampleRate = 0 then some 0
        else some (totalSamples * 1000 / avgSampleRate)

/-- One public buffer operation, for stating reachability over operation
sequences. -/
inductive BufOp (F : Type) where
  | push (data : List Int) (sampleRate channels now : Nat)
  | pushFloat32 (data : List F) (sampleRate channels now : Nat)
  | pop
  | popMultiple (maxChunks : Nat)
  | popMultipleFloat32 (maxChunks : Nat)
  | clear
  | setMaxSize (maxSizeBytes : Nat)
deriving DecidableEq, Repr

/-- Apply one public operation to the buffer state (popped values discarded). -/
def applyOp {F : Type} (hdr : Nat) (s : AudioBuffer F) : BufOp F → AudioBuffer F
  | .push d r ch t => Push hdr d r ch t s
  | .pushFloat32 d r ch t => PushFloat32 hdr d r ch t s
  | .pop =>
      match Pop hdr s with
      | none => s
      | some (_, s1) => s1
  | .popMultiple n => (PopMultiple hdr n s).2
  | .popMultipleFloat32 n => (PopMultipleFloat32 hdr n s).2
  | .clear => Clear s
  | .setMaxSize n => SetMaxSize hdr n s

/-- Run a sequence of public operations. -/
def runOps {F : Type} (hdr : Nat) (ops : List (BufOp F)) (s : AudioBuffer F) :
    AudioBuffer F :=
  ops.foldl (applyOp hdr) s

/-- The three operations that end in an eviction pass (claim C1's set). -/
def isEvictionOp {F : Type} : BufOp F → Bool
  | .push _ _ _ _ => true
  | .pushFloat32 _ _ _ _ => true
  | .setMaxSize _ => true
  | _ => false

/-- Total byte size of the queued PCM16 chunks, as accounted by
AudioBuffer::GetChunkSize. -/
def pcmQueueBytes (hdr : Nat) (l : List AudioChunk) : Nat :=
  (l.map (GetChunkSize hdr)).sum

/-- Total byte size of the queued float32 chunks (4 bytes per sample). -/
def floatQueueBytes {F : Type} (l : List (Float32AudioChunk F)) : Nat :=
  (l.map (fun c => c.data.length * 4)).sum

/-- Raw format descriptor (struct AudioFormat in audio_capture_base.h). -/
structure AudioFormat where
  sampleRate : Nat
  channels : Nat
  bitsPerSample : Nat
  bytesPerFrame : Nat
  blockAlign : Nat
  isFloat : Bool
  isNonInterleaved : Bool
  formatFlags : Nat
deriving DecidableEq, Repr

/-- Raw captured sample (struct AudioSample in audio_capture_base.h): a byte
sequence (each entry < 256), its format, timestamp and frame count. -/
structure AudioSample where
  data : List Nat
  format : AudioFormat
  timestamp : Nat
  frameCount : Nat
deriving DecidableEq, Repr

/-- Byte i of the raw data (reads past the end yield 0; every verified
statement stays in bounds). -/
def byteAt (data : List Nat) (i : Nat) : Nat := data.getD i 0

/-- Two little-endian bytes reinterpreted as int16_t (the
reinterpret_cast of the data pointer on a little-endian machine). -/
def int16OfBytes (b0 b1 : Nat) : Int :=
  let v := b0 + 256 * b1
  if v < 32768 then (v : Int) else (v : Int) - 65536

/-- The int16_t sample at index i of the raw byte sequence. -/
def int16At (data : List Nat) (i : Nat) : Int :=
  int16OfBytes (byteAt data (2 * i)) (byteAt data (2 * i + 1))

/-- Four little-endian bytes assembled into a 32-bit word. -/
def word32At (data : List Nat) (i : Nat) : Nat :=
  byteAt data (4 * i) + 256 * byteAt data (4 * i + 1) +
    65536 * byteAt data (4 * i + 2) + 16777216 * byteAt data (4 * i + 3)

/-- A 32-bit word reinterpreted as int32_t (two's complement). -/
def int32OfWord (w : Nat) : Int :=
  if w < 2147483648 then (w : Int) else (w : Int) - 4294967296

/-- The int32_t sample at index i of the raw byte sequence. -/
def int32At (data : List Nat) (i : Nat) : Int :=
  int32OfWord (word32At data i)

/-- Narrowing cast to int16_t: reduction into [-32768, 32767] modulo 2^16
(two's complement), as static_cast<int16_t> behaves on every supported
platform. -/
def toInt16 (z : Int) : Int := (z + 32768) % 65536 - 32768

/-- Round to the nearest integer, ties to even: the behaviour of lrintf in
the default rounding mode. -/
def roundHalfEven (q : ℚ) : Int :=
  let f := ⌊q⌋
  let r := q - (f : ℚ)
  if r < 1 / 2 then f
  else if 1 / 2 < r then f + 1
  else if f % 2 = 0 then f else f + 1

/-- Per-sample body of AudioFormatConverter::FloatToInt16 (also inlined in the
non-interleaved branch of ConvertToPCM16): clamp to [-1, 1] (the source clamps
twice, via std::max/std::min and then std::fmax/std::fmin), scale by 32768.0,
round with lrintf and cast to int16_t. -/
def floatSampleToInt16 (x : ℚ) : Int :=
  let clamped := max (-1 : ℚ) (min 1 x)
  let clamped2 := max (-1 : ℚ) (min 1 clamped)
  toInt16 (roundHalfEven (clamped2 * 32768))

/-- AudioFormatConverter::FloatToInt16. -/
def FloatToInt16 (samples : List ℚ) : List Int :=
  samples.map floatSampleToInt16

/-- AudioFormatConverter::Int32ToInt16: arithmetic right shift by 16 bits,
then the int16_t cast. -/
def Int32ToInt16 (samples : List Int) : List Int :=
  samples.map (fun sample32 => toInt16 (Int.fdiv sample32 65536))

/-- One sample of the 24-bit branch of AudioFormatConverter::ConvertToPCM16:
assemble 3 little-endian bytes, sign-extend when bit 23 is set (the source
ORs in 0xFF000000, which on a 32-bit two's-complement int subtracts 2^24),
arithmetically shift right by 8, cast to int16_t. -/
def decode24 (b0 b1 b2 : Nat) : Int :=
  let sample24 := b0 + 256 * b1 + 65536 * b2
  let signExtended : Int :=
    if sample24 &&& 8388608 ≠ 0 then (sample24 : Int) - 16777216 else (sample24 : Int)
  toInt16 (Int.fdiv signExtended 256)

/-- Pair loop of AudioFormatConverter::StereoToMono: each output sample is
(left + right) >> 1 on int32, cast to int16_t. -/
def stereoPairs : List Int → List Int
  | left :: right :: rest => toInt16 (Int.fdiv (left + right) 2) :: stereoPairs rest
  | _ => []

/-- AudioFormatConverter::StereoToMono: empty result on odd-length input,
otherwise average each adjacent pair. -/
def StereoToMono (stereoData : List Int) : List Int :=
  if stereoData.length % 2 ≠ 0 then []
  else stereoPairs stereoData

/-- Step 1 of AudioFormatConverter::ConvertToMonoFloat32: decode the raw bytes
to float samples according to bitsPerSample; none models the early return on
an unsupported bit depth.  floatOfBits is the (platform) reinterpretation of a
32-bit word as a float sample. -/
def decodeMonoFloat32Samples (floatOfBits : Nat → ℚ) (input : AudioSample) :
    Option (List ℚ) :=
  let fmt := input.format
  if fmt.bitsPerSample = 16 then
    some ((List.range (input.data.length / 2)).map
      (fun i => (int16At input.data i : ℚ) / 32768))
  else if fmt.bitsPerSample = 32 then
    let frameCount := input.data.length / (4 * fmt.channels)
    let totalSamples := frameCount * fmt.channels
    some (
      if fmt.isFloat then
        if fmt.isNonInterleaved ∧ fmt.channels = 2 then
          (List.range frameCount).flatMap (fun frame =>
            [floatOfBits (word32At input.data frame),
             floatOfBits (word32At input.data (frameCount + frame))])
        else
          (List.range totalSamples).map (fun i => floatOfBits (word32At input.data i))
      else
        (List.range totalSamples).map
          (fun i => (int32At input.data i : ℚ) / 2147483648))
  else none

/-- Step 2 of AudioFormatConverter::ConvertToMonoFloat32: when the source has
more than one channel, downmix to mono by the per-frame arithmetic mean. -/
def monoMixFloat (channels : Nat) (samples : List ℚ) : List ℚ :=
  if 1 < channels then
    let frameCount := samples.length / channels
    (List.range frameCount).map (fun frame =>
      ((List.range channels).map
        (fun c => samples.getD (frame * channels + c) 0)).sum / (channels : ℚ))
  else samples

/-- AudioFormatConverter::ConvertToMonoFloat32. -/
def ConvertToMonoFloat32 (floatOfBits : Nat → ℚ) (input : AudioSample) : List ℚ :=
  if input.data.isEmpty then []
  else
    match decodeMonoFloat32Samples floatOfBits input with
    | none => []
    | some samples => monoMixFloat input.format.channels samples

/-- Step 1 of AudioFormatConverter::ConvertToPCM16: decode raw bytes to int16
samples according to bitsPerSample; none models the early return on an
unsupported bit depth. -/
def decodePCM16Samples (floatOfBits : Nat → ℚ) (input : AudioSample) :
    Option (List Int) :=
  let fmt := input.format
  if fmt.bitsPerSample = 16 then
    some ((List.range (input.data.length / 2)).map (int16At input.data))
  else if fmt.bitsPerSample = 32 then
    let frameCount := input.data.length / (4 * fmt.channels)
    let totalSamples := frameCount * fmt.channels
    some (
      if fmt.isFloat then
        if fmt.isNonInterleaved ∧ fmt.channels = 2 then
          (List.range frameCount).flatMap (fun frame =>
            [floatSampleToInt16 (floatOfBits (word32At input.data frame)),
             floatSampleToInt16 (floatOfBits (word32At input.data (frameCount + frame)))])
        else
          FloatToInt16
            ((List.range totalSamples).map (fun i => floatOfBits (word32At input.data i)))
      else
        Int32ToInt16 ((List.range totalSamples).map (int32At input.data)))
  else if fmt.bitsPerSample = 24 then
    some ((List.range (input.data.length / 3)).map (fun i =>
      decode24 (byteAt input.data (3 * i)) (byteAt input.data (3 * i + 1))
        (byteAt input.data (3 * i + 2))))
  else none

/-- AudioFormatConverter::ConvertToPCM16: decode (step 1), then downmix when
the source has more than one channel and targetChannels = 1 (step 2); the
resampling and filtering steps 3-4 are skipped by the source.
targetSampleRate is accepted and ignored, as in the source. -/
def ConvertToPCM16 (floatOfBits : Nat → ℚ) (input : AudioSample)
    (targetSampleRate targetChannels : Nat) : List Int :=
  if input.data.isEmpty then []
  else
    match decodePCM16Samples floatOfBits input with
    | none => []
    | some samples =>
        if 1 < input.format.channels ∧ targetChannels = 1 then StereoToMono samples
        else samples

/-- Byte-budget invariant (claim C1): whenever the PCM16 queue is non-empty,
the counter is within the budget. -/
def budgetInv {F : Type} (s : AudioBuffer F) : Prop :=
  s.chunks ≠ [] → s.currentSizeBytes ≤ s.maxSizeBytes

/-- Counter-accounting invariant (claim C2): the counter equals the summed
byte sizes of the chunks queued across both queues. -/
def sizeInv {F : Type} (hdr : Nat) (s : AudioBuffer F) : Prop :=
  s.currentSizeBytes = pcmQueueBytes hdr s.chunks + floatQueueBytes s.float32Chunks

theorem pcmQueueBytes_cons (hdr : Nat) (c : AudioChunk) (l : List AudioChunk) :
    pcmQueueBytes hdr (c :: l) = GetChunkSize hdr c + pcmQueueBytes hdr l := by
  simp [pcmQueueBytes]

theorem pcmQueueBytes_append (hdr : Nat) (l : List AudioChunk) (c : AudioChunk) :
    pcmQueueBytes hdr (l ++ [c]) = pcmQueueBytes hdr l + GetChunkSize hdr c := by
  simp [pcmQueueBytes]

theorem floatQueueBytes_cons {F : Type} (c : Float32AudioChunk F)
    (l : List (Float32AudioChunk F)) :
    floatQueueBytes (c :: l) = c.data.length * 4 + floatQueueBytes l := by
  simp [floatQueueBytes]

theorem floatQueueBytes_append {F : Type} (l : List (Float32AudioChunk F))
    (c : Float32AudioChunk F) :
    floatQueueBytes (l ++ [c]) = floatQueueBytes l + c.data.length * 4 := by
  simp [floatQueueBytes]

theorem trimGo_le_or_nil (hdr maxS : Nat) :
    ∀ (l : List AudioChunk) (cur : Nat),
      (trimGo hdr maxS l cur).2 ≤ maxS ∨ (trimGo hdr maxS l cur).1 = []
  | [], cur => by simp [trimGo]
  | c :: rest, cur => by
      by_cases h : maxS < cur
      · simpa [trimGo, h] using
          trimGo_le_or_nil hdr maxS rest (cur - GetChunkSize hdr c)
      · simp [trimGo, h]
        omega

theorem trimGo_suffix (hdr maxS : Nat) :
    ∀ (l : List AudioChunk) (cur : Nat), (trimGo hdr maxS l cur).1 <:+ l
  | [], cur => by simp [trimGo]
  | c :: rest, cur => by
      by_cases h : maxS < cur
      · simp only [trimGo, if_pos h]
        exact (trimGo_suffix hdr maxS rest (cur - GetChunkSize hdr c)).trans
          (List.suffix_cons c rest)
      · simp [trimGo, h]

theorem trimGo_noop (hdr maxS : Nat) (l : List AudioChunk) (cur : Nat)
    (h : cur ≤ maxS) : trimGo hdr maxS l cur = (l, cur) := by
  cases l with
  | nil => simp [trimGo]
  | cons c rest => simp [trimGo, if_neg (Nat.not_lt.mpr h)]

theorem trimGo_counter (hdr maxS : Nat) :
    ∀ (l : List AudioChunk) (cur r : Nat), cur = pcmQueueBytes hdr l + r →
      (trimGo hdr maxS l cur).2 = pcmQueueBytes hdr (trimGo hdr maxS l cur).1 + r
  | [], cur, r, h => by simpa [trimGo, pcmQueueBytes] using h
  | c :: rest, cur, r, h => by
      by_cases hlt : maxS < cur
      · simp only [trimGo, if_pos hlt]
        refine trimGo_counter hdr maxS rest (cur - GetChunkSize hdr c) r ?_
        rw [pcmQueueBytes_cons] at h
        omega
      · simpa only [trimGo, if_neg hlt] using h

theorem TrimToSize_noop {F : Type} (hdr : Nat) (s : AudioBuffer F)
    (h : s.currentSizeBytes ≤ s.maxSizeBytes) : TrimToSize hdr s = s := by
  simp [TrimToSize, trimGo_noop hdr s.maxSizeBytes s.chunks s.currentSizeBytes h]

theorem budgetInv_TrimToSize {F : Type} (hdr : Nat) (s : AudioBuffer F) :
    budgetInv (TrimToSize hdr s) := by
  intro h
  simp only [TrimToSize] at h ⊢
  rcases trimGo_le_or_nil hdr s.maxSizeBytes s.chunks s.currentSizeBytes with h1 | h1
  · exact h1
  · exact absurd h1 h

theorem budgetInv_PopMultiple {F : Type} (hdr : Nat) :
    ∀ (n : Nat) (s : AudioBuffer F), budgetInv s → budgetInv (PopMultiple hdr n s).2
  | 0, _, h => h
  | Nat.succ n, s, h => by
      rcases hc : s.chunks with _ | ⟨c, rest⟩
      · simp only [PopMultiple, hc]
        exact h
      · have h1 : budgetInv ({ s with chunks := rest, currentSizeBytes := s.currentSizeBytes - GetChunkSize hdr c } : AudioBuffer F) := by
          intro _
          have hle := h (by simp [hc])
          simp only
          omega
        have := budgetInv_PopMultiple hdr n _ h1
        simpa only [PopMultiple, hc] using this

theorem PopMultipleFloat32_state {F : Type} (hdr : Nat) :
    ∀ (n : Nat) (s : AudioBuffer F),
      (PopMultipleFloat32 hdr n s).2.chunks = s.chunks ∧
      (PopMultipleFloat32 hdr n s).2.maxSizeBytes = s.maxSizeBytes ∧
      (PopMultipleFloat32 hdr n s).2.currentSizeBytes ≤ s.currentSizeBytes
  | 0, s => ⟨rfl, rfl, Nat.le_refl _⟩
  | Nat.succ n, s => by
      rcases hc : s.float32Chunks with _ | ⟨c, rest⟩
      · simp [PopMultipleFloat32, hc]
      · have ih := PopMultipleFloat32_state hdr n ({ s with float32Chunks := rest, currentSizeBytes := s.currentSizeBytes - c.data.length * 4 } : AudioBuffer F)
        simp only at ih
        simp only [PopMultipleFloat32, hc]
        exact ⟨ih.1, ih.2.1, Nat.le_trans ih.2.2 (Nat.sub_le _ _)⟩

theorem budgetInv_applyOp {F : Type} (hdr : Nat) (s : AudioBuffer F) (op : BufOp F)
    (h : budgetInv s) : budgetInv (applyOp hdr s op) := by
  cases op with
  | push d r ch t =>
      by_cases hd : d.isEmpty
      · simpa [applyOp, Push, hd] using h
      · simp only [applyOp, Push, hd, Bool.false_eq_true, if_false]
        exact budgetInv_TrimToSize hdr _
  | pushFloat32 d r ch t =>
      by_cases hd : d.isEmpty
      · simpa [applyOp, PushFloat32, hd] using h
      · simp only [applyOp, PushFloat32, hd, Bool.false_eq_true, if_false]
        exact budgetInv_TrimToSize hdr _
  | pop =>
      rcases hc : s.chunks with _ | ⟨c, rest⟩
      · simpa [applyOp, Pop, hc] using h
      · simp only [applyOp, Pop, hc]
        intro _
        have hle := h (by simp [hc])
        simp only
        omega
  | popMultiple n => exact budgetInv_PopMultiple hdr n s h
  | popMultipleFloat32 n =>
      have hst := PopMultipleFloat32_state hdr n s
      intro hne
      simp only [applyOp] at hne ⊢
      rw [hst.1] at hne
      rw [hst.2.1]
      exact Nat.le_trans hst.2.2 (h hne)
  | clear =>
      intro hne
      exact absurd rfl hne
  | setMaxSize n => exact budgetInv_TrimToSize hdr _

theorem budgetInv_runOps {F : Type} (hdr : Nat) :
    ∀ (ops : List (BufOp F)) (s : AudioBuffer F), budgetInv s → budgetInv (runOps hdr ops s)
  | [], _, h => h
  | op :: rest, s, h => by
      simpa [runOps] using
        budgetInv_runOps hdr rest (applyOp hdr s op) (budgetInv_applyOp hdr s op h)

theorem sizeInv_TrimToSize {F : Type} (hdr : Nat) (s : AudioBuffer F)
    (h : sizeInv hdr s) : sizeInv hdr (TrimToSize hdr s) := by
  have := trimGo_counter hdr s.maxSizeBytes s.chunks s.currentSizeBytes
    (floatQueueBytes s.float32Chunks) h
  simpa [sizeInv, TrimToSize] using this

theorem sizeInv_PopMultiple {F : Type} (hdr : Nat) :
    ∀ (n : Nat) (s : AudioBuffer F), sizeInv hdr s → sizeInv hdr (PopMultiple hdr n s).2
  | 0, _, h => h
  | Nat.succ n, s, h => by
      rcases hc : s.chunks with _ | ⟨c, rest⟩
      · simp only [PopMultiple, hc]
        exact h
      · have h1 : sizeInv hdr ({ s with chunks := rest, currentSizeBytes := s.currentSizeBytes - GetChunkSize hdr c } : AudioBuffer F) := by
          simp only [sizeInv] at h ⊢
          rw [hc, pcmQueueBytes_cons] at h
          omega
        have := sizeInv_PopMultiple hdr n _ h1
        simpa only [PopMultiple, hc] using this

theorem sizeInv_PopMultipleFloat32 {F : Type} (hdr : Nat) :
    ∀ (n : Nat) (s : AudioBuffer F), sizeInv hdr s → sizeInv hdr (PopMultipleFloat32 hdr n s).2
  | 0, _, h => h
  | Nat.succ n, s, h => by
      rcases hc : s.float32Chunks with _ | ⟨c, rest⟩
      · simp only [PopMultipleFloat32, hc]
        exact h
      · have h1 : sizeInv hdr ({ s with float32Chunks := rest, currentSizeBytes := s.currentSizeBytes - c.data.length * 4 } : AudioBuffer F) := by
          simp only [sizeInv] at h ⊢
          rw [hc, floatQueueBytes_cons] at h
          omega
        have := sizeInv_PopMultipleFloat32 hdr n _ h1
        simpa only [PopMultipleFloat32, hc] using this

theorem sizeInv_applyOp {F : Type} (hdr : Nat) (s : AudioBuffer F) (op : BufOp F)
    (h : sizeInv hdr s) : sizeInv hdr (applyOp hdr s op) := by
  cases op with
  | push d r ch t =>
      by_cases hd : d.isEmpty
      · simpa [applyOp, Push, hd] using h
      · simp only [applyOp, Push, hd, Bool.false_eq_true, if_false]
        refine sizeInv_TrimToSize hdr _ ?_
        simp only [sizeInv] at h ⊢
        rw [pcmQueueBytes_append]
        dsimp only [GetChunkSize]
        omega
  | pushFloat32 d r ch t =>
      by_cases hd : d.isEmpty
      · simpa [applyOp, PushFloat32, hd] using h
      · simp only [applyOp, PushFloat32, hd, Bool.false_eq_true, if_false]
        refine sizeInv_TrimToSize hdr _ ?_
        simp only [sizeInv] at h ⊢
        rw [floatQueueBytes_append]
        dsimp only
        omega
  | pop =>
      rcases hc : s.chunks with _ | ⟨c, rest⟩
      · simpa [applyOp, Pop, hc] using h
      · simp only [applyOp, Pop, hc]
        simp only [sizeInv, hc, pcmQueueBytes_cons] at h ⊢
        omega
  | popMultiple n => exact sizeInv_PopMultiple hdr n s h
  | popMultipleFloat32 n => exact sizeInv_PopMultipleFloat32 hdr n s h
  | clear => simp [applyOp, Clear, sizeInv, pcmQueueBytes, floatQueueBytes]
  | setMaxSize n =>
      refine sizeInv_TrimToSize hdr _ ?_
      simpa only [sizeInv] using h

theorem sizeInv_runOps {F : Type} (hdr : Nat) :
    ∀ (ops : List (BufOp F)) (s : AudioBuffer F), sizeInv hdr s → sizeInv hdr (runOps hdr ops s)
  | [], _, h => h
  | op :: rest, s, h => by
      simpa [runOps] using
        sizeInv_runOps hdr rest (applyOp hdr s op) (sizeInv_applyOp hdr s op h)

theorem isEmpty_false_of_ne_nil {α : Type} {l : List α} (h : l ≠ []) :
    l.isEmpty = false := by
  cases l with
  | nil => exact absurd rfl h
  | cons a t => rfl

theorem PopMultiple_take_drop {F : Type} (hdr : Nat) :
    ∀ (n : Nat) (s : AudioBuffer F),
      (PopMultiple hdr n s).1 = s.chunks.take n ∧
      (PopMultiple hdr n s).2.chunks = s.chunks.drop n
  | 0, s => by simp [PopMultiple]
  | Nat.succ n, s => by
      rcases hc : s.chunks with _ | ⟨c, rest⟩
      · simp [PopMultiple, hc]
      · have ih := PopMultiple_take_drop hdr n ({ s with chunks := rest, currentSizeBytes := s.currentSizeBytes - GetChunkSize hdr c } : AudioBuffer F)
        simp only at ih
        simp [PopMultiple, hc, ih.1, ih.2]

theorem PopMultipleFloat32_take_drop {F : Type} (hdr : Nat) :
    ∀ (n : Nat) (s : AudioBuffer F),
      (PopMultipleFloat32 hdr n s).1 = s.float32Chunks.take n ∧
      (PopMultipleFloat32 hdr n s).2.float32Chunks = s.float32Chunks.drop n
  | 0, s => by simp [PopMultipleFloat32]
  | Nat.succ n, s => by
      rcases hc : s.float32Chunks with _ | ⟨c, rest⟩
      · simp [PopMultipleFloat32, hc]
      · have ih := PopMultipleFloat32_take_drop hdr n ({ s with float32Chunks := rest, currentSizeBytes := s.currentSizeBytes - c.data.length * 4 } : AudioBuffer F)
        simp only at ih
        simp [PopMultipleFloat32, hc, ih.1, ih.2]

theorem Push_no_evict {F : Type} (hdr : Nat) (d : List Int) (r ch t : Nat)
    (s : AudioBuffer F) (hne : d ≠ [])
    (hfit : s.currentSizeBytes + (hdr + d.length * 2) ≤ s.maxSizeBytes) :
    Push hdr d r ch t s =
      { s with chunks := s.chunks ++ [⟨d, t, r, ch⟩], currentSizeBytes := s.currentSizeBytes + (hdr + d.length * 2) } := by
  simp only [Push, isEmpty_false_of_ne_nil hne, Bool.false_eq_true, if_false]
  rw [TrimToSize_noop]
  · rfl
  · exact hfit

theorem PushFloat32_empty_pcm {F : Type} (hdr : Nat) (d : List F) (r ch t : Nat)
    (s : AudioBuffer F) (hne : d ≠ []) (hpcm : s.chunks = []) :
    PushFloat32 hdr d r ch t s =
      { s with float32Chunks := s.float32Chunks ++ [⟨d, t, r, ch⟩], currentSizeBytes := s.currentSizeBytes + d.length * 4 } := by
  simp only [PushFloat32, isEmpty_false_of_ne_nil hne, Bool.false_eq_true, if_false]
  simp [TrimToSize, hpcm, trimGo]

theorem durationFold_closed :
    ∀ (l : List AudioChunk) (t0 r0 : Nat), (∀ c ∈ l, c.channels ≠ 0) →
      l.foldl durationFold (some (t0, r0)) =
        some (t0 + (l.map (fun c => c.data.length / c.channels)).sum,
          ((l.getLast?).map AudioChunk.sampleRate).getD r0)
  | [], t0, r0, _ => by simp
  | c :: rest, t0, r0, h => by
      have hc : c.channels ≠ 0 := h c (List.mem_cons_self c rest)
      have ih := durationFold_closed rest (t0 + c.data.length / c.channels) c.sampleRate
        (fun x hx => h x (List.mem_cons_of_mem c hx))
      simp only [List.foldl_cons, durationFold, if_neg hc]
      rw [ih]
      have hsum : t0 + c.data.length / c.channels +
          (rest.map (fun x => x.data.length / x.channels)).sum =
          t0 + ((c :: rest).map (fun x => x.data.length / x.channels)).sum := by
        simp
        omega
      have hrate : ((rest.getLast?).map AudioChunk.sampleRate).getD c.sampleRate =
          (((c :: rest).getLast?).map AudioChunk.sampleRate).getD r0 := by
        cases rest with
        | nil => simp
        | cons x xs =>
            rcases hgl : (x :: xs).getLast? with _ | a
            · simp at hgl
            · simp [List.getLast?_cons_cons, hgl]
      rw [hsum, hrate]

theorem GetBufferedDurationMs_closed {F : Type} (s : AudioBuffer F)
    (hch : ∀ c ∈ s.chunks, c.channels ≠ 0) :
    GetBufferedDurationMs s =
      some (if s.chunks = [] then 0
        else
          if ((s.chunks.getLast?).map AudioChunk.sampleRate).getD 0 = 0 then 0
          else (s.chunks.map (fun c => c.data.length / c.channels)).sum * 1000 /
            ((s.chunks.getLast?).map AudioChunk.sampleRate).getD 0) := by
  by_cases h : s.chunks = []
  · simp [GetBufferedDurationMs, h]
  · simp only [GetBufferedDurationMs, h, if_false]
    rw [durationFold_closed s.chunks 0 0 hch]
    simp only [Nat.zero_add]
    by_cases hr : ((s.chunks.getLast?).map AudioChunk.sampleRate).getD 0 = 0 <;> simp [hr]

/-- C1: Byte-budget invariant of the bounded buffer: for every sequence of
Push/PushFloat32/SetMaxSize operations run from a fresh buffer, after each
operation's eviction pass, a non-empty PCM16 queue implies the global byte
counter is within the (current) budget; and the eviction pass (TrimToSize)
removes chunks only from the front of the PCM16 queue (the result is a suffix
and the float32 queue is untouched) until the counter is within budget or
that queue is empty, doing nothing when the counter is already within
budget. -/
theorem byteBudgetInvariant {F : Type} (hdr B : Nat) (ops : List (BufOp F))
    (hops : ∀ op ∈ ops, isEvictionOp op = true) (s : AudioBuffer F) :
    ((runOps hdr ops (mkBuffer F B)).chunks ≠ [] →
      (runOps hdr ops (mkBuffer F B)).currentSizeBytes ≤
        (runOps hdr ops (mkBuffer F B)).maxSizeBytes)
    ∧ (TrimToSize hdr s).chunks <:+ s.chunks
    ∧ (TrimToSize hdr s).float32Chunks = s.float32Chunks
    ∧ ((TrimToSize hdr s).currentSizeBytes ≤ s.maxSizeBytes ∨
        (TrimToSize hdr s).chunks = [])
    ∧ (s.currentSizeBytes ≤ s.maxSizeBytes → TrimToSize hdr s = s) := by
  refine ⟨budgetInv_runOps hdr ops (mkBuffer F B) (fun hne => absurd rfl hne),
    ?_, rfl, ?_, TrimToSize_noop hdr s⟩
  · exact trimGo_suffix hdr s.maxSizeBytes s.chunks s.currentSizeBytes
  · exact trimGo_le_or_nil hdr s.maxSizeBytes s.chunks s.currentSizeBytes

/-- Witness for C1: a concrete sequence of pushes and a budget change,
evaluated; the final queue is non-empty and the counter is within budget. -/
theorem byteBudgetInvariant_witness :
    (runOps 40 [BufOp.push [1, 2, 3] 48000 1 0,
        BufOp.pushFloat32 [(5 : Int)] 48000 1 1,
        BufOp.setMaxSize 50, BufOp.push [7] 48000 1 2]
      (mkBuffer Int 100)).currentSizeBytes ≤
      (runOps 40 [BufOp.push [1, 2, 3] 48000 1 0,
          BufOp.pushFloat32 [(5 : Int)] 48000 1 1,
          BufOp.setMaxSize 50, BufOp.push [7] 48000 1 2]
        (mkBuffer Int 100)).maxSizeBytes :=
  (byteBudgetInvariant 40 100
    [BufOp.push [1, 2, 3] 48000 1 0, BufOp.pushFloat32 [(5 : Int)] 48000 1 1,
      BufOp.setMaxSize 50, BufOp.push [7] 48000 1 2]
    (by decide) (mkBuffer Int 0)).1 (by decide)

/-- C2: Counter-accounting invariant: in every state reachable from a fresh
buffer through the public operations, the running byte counter equals the sum
over queued PCM16 chunks of (header-overhead + 2 * sampleCount) plus the sum
over queued float32 chunks of (4 * sampleCount); and Push / PushFloat32 are
no-ops on empty input. -/
theorem counterAccounting {F : Type} (hdr B : Nat) (ops : List (BufOp F))
    (sampleRate channels now : Nat) (s : AudioBuffer F) :
    (runOps hdr ops (mkBuffer F B)).currentSizeBytes =
      pcmQueueBytes hdr (runOps hdr ops (mkBuffer F B)).chunks +
        floatQueueBytes (runOps hdr ops (mkBuffer F B)).float32Chunks
    ∧ Push hdr [] sampleRate channels now s = s
    ∧ PushFloat32 hdr ([] : List F) sampleRate channels now s = s := by
  refine ⟨sizeInv_runOps hdr ops (mkBuffer F B) ?_, by simp [Push], by simp [PushFloat32]⟩
  simp [sizeInv, mkBuffer, pcmQueueBytes, floatQueueBytes]

/-- C3: FIFO and batch-pop bound: PopMultiple (resp. PopMultipleFloat32)
returns exactly the min(maxCount, queue length) oldest chunks in arrival
order and leaves the rest; and pushing three chunks into each queue in order
and popping three times yields them in that order. -/
theorem fifoAndBatchPop {F : Type} (hdr B n : Nat) (s : AudioBuffer F)
    (d1 d2 d3 : List Int) (f1 f2 f3 : List F)
    (r1 r2 r3 ch1 ch2 ch3 t1 t2 t3 : Nat)
    (fr1 fr2 fr3 fc1 fc2 fc3 ft1 ft2 ft3 : Nat)
    (hne1 : d1 ≠ []) (hne2 : d2 ≠ []) (hne3 : d3 ≠ [])
    (hf1 : f1 ≠ []) (hf2 : f2 ≠ []) (hf3 : f3 ≠ [])
    (hfit : (hdr + d1.length * 2) + (hdr + d2.length * 2) + (hdr + d3.length * 2) ≤ B) :
    ((PopMultiple hdr n s).1 = s.chunks.take n
      ∧ (PopMultiple hdr n s).2.chunks = s.chunks.drop n
      ∧ (PopMultiple hdr n s).1.length = min n s.chunks.length
      ∧ (PopMultipleFloat32 hdr n s).1 = s.float32Chunks.take n
      ∧ (PopMultipleFloat32 hdr n s).2.float32Chunks = s.float32Chunks.drop n
      ∧ (PopMultipleFloat32 hdr n s).1.length = min n s.float32Chunks.length)
    ∧ (let s3 := Push hdr d3 r3 ch3 t3 (Push hdr d2 r2 ch2 t2 (Push hdr d1 r1 ch1 t1 (mkBuffer F B)))
       let s4 := applyOp hdr s3 BufOp.pop
       let s5 := applyOp hdr s4 BufOp.pop
       (Pop hdr s3).map Prod.fst = some ⟨d1, t1, r1, ch1⟩
         ∧ (Pop hdr s4).map Prod.fst = some ⟨d2, t2, r2, ch2⟩
         ∧ (Pop hdr s5).map Prod.fst = some ⟨d3, t3, r3, ch3⟩
         ∧ (applyOp hdr s5 BufOp.pop).chunks = [])
    ∧ (let u3 := PushFloat32 hdr f3 fr3 fc3 ft3 (PushFloat32 hdr f2 fr2 fc2 ft2 (PushFloat32 hdr f1 fr1 fc1 ft1 (mkBuffer F B)))
       let u4 := (PopMultipleFloat32 hdr 1 u3).2
       let u5 := (PopMultipleFloat32 hdr 1 u4).2
       (PopMultipleFloat32 hdr 1 u3).1 = [⟨f1, ft1, fr1, fc1⟩]
         ∧ (PopMultipleFloat32 hdr 1 u4).1 = [⟨f2, ft2, fr2, fc2⟩]
         ∧ (PopMultipleFloat32 hdr 1 u5).1 = [⟨f3, ft3, fr3, fc3⟩]
         ∧ (PopMultipleFloat32 hdr 1 u5).2.float32Chunks = []) := by
  have e1 : Push hdr d1 r1 ch1 t1 (mkBuffer F B) =
      { chunks := [⟨d1, t1, r1, ch1⟩], float32Chunks := [], maxSizeBytes := B, currentSizeBytes := hdr + d1.length * 2 } := by
    rw [Push_no_evict hdr d1 r1 ch1 t1 _ hne1 (by simp [mkBuffer]; omega)]
    simp [mkBuffer]
  have e2 : Push hdr d2 r2 ch2 t2 ({ chunks := [⟨d1, t1, r1, ch1⟩], float32Chunks := [], maxSizeBytes := B, currentSizeBytes := hdr + d1.length * 2 } : AudioBuffer F) =
      { chunks := [⟨d1, t1, r1, ch1⟩, ⟨d2, t2, r2, ch2⟩], float32Chunks := [], maxSizeBytes := B, currentSizeBytes := (hdr + d1.length * 2) + (hdr + d2.length * 2) } := by
    rw [Push_no_evict hdr d2 r2 ch2 t2 _ hne2 (by simp; omega)]
    simp
  have e3 : Push hdr d3 r3 ch3 t3 ({ chunks := [⟨d1, t1, r1, ch1⟩, ⟨d2, t2, r2, ch2⟩], float32Chunks := [], maxSizeBytes := B, currentSizeBytes := (hdr + d1.length * 2) + (hdr + d2.length * 2) } : AudioBuffer F) =
      { chunks := [⟨d1, t1, r1, ch1⟩, ⟨d2, t2, r2, ch2⟩, ⟨d3, t3, r3, ch3⟩], float32Chunks := [], maxSizeBytes := B, currentSizeBytes := (hdr + d1.length * 2) + (hdr + d2.length * 2) + (hdr + d3.length * 2) } := by
    rw [Push_no_evict hdr d3 r3 ch3 t3 _ hne3 (by simp; omega)]
    simp
  have g1 : PushFloat32 hdr f1 fr1 fc1 ft1 (mkBuffer F B) =
      { chunks := [], float32Chunks := [⟨f1, ft1, fr1, fc1⟩], maxSizeBytes := B, currentSizeBytes := f1.length * 4 } := by
    rw [PushFloat32_empty_pcm hdr f1 fr1 fc1 ft1 _ hf1 rfl]
    simp [mkBuffer]
  have g2 : PushFloat32 hdr f2 fr2 fc2 ft2 ({ chunks := [], float32Chunks := [⟨f1, ft1, fr1, fc1⟩], maxSizeBytes := B, currentSizeBytes := f1.length * 4 } : AudioBuffer F) =
      { chunks := [], float32Chunks := [⟨f1, ft1, fr1, fc1⟩, ⟨f2, ft2, fr2, fc2⟩], maxSizeBytes := B, currentSizeBytes := f1.length * 4 + f2.length * 4 } := by
    rw [PushFloat32_empty_pcm hdr f2 fr2 fc2 ft2 _ hf2 rfl]
    simp
  have g3 : PushFloat32 hdr f3 fr3 fc3 ft3 ({ chunks := [], float32Chunks := [⟨f1, ft1, fr1, fc1⟩, ⟨f2, ft2, fr2, fc2⟩], maxSizeBytes := B, currentSizeBytes := f1.length * 4 + f2.length * 4 } : AudioBuffer F) =
      { chunks := [], float32Chunks := [⟨f1, ft1, fr1, fc1⟩, ⟨f2, ft2, fr2, fc2⟩, ⟨f3, ft3, fr3, fc3⟩], maxSizeBytes := B, currentSizeBytes := f1.length * 4 + f2.length * 4 + f3.length * 4 } := by
    rw [PushFloat32_empty_pcm hdr f3 fr3 fc3 ft3 _ hf3 rfl]
    simp
  refine ⟨⟨(PopMultiple_take_drop hdr n s).1, (PopMultiple_take_drop hdr n s).2, ?_,
      (PopMultipleFloat32_take_drop hdr n s).1, (PopMultipleFloat32_take_drop hdr n s).2, ?_⟩,
    ?_, ?_⟩
  · rw [(PopMultiple_take_drop hdr n s).1, List.length_take]
  · rw [(PopMultipleFloat32_take_drop hdr n s).1, List.length_take]
  · simp [e1, e2, e3, applyOp, Pop]
  · simp [g1, g2, g3, PopMultipleFloat32]

/-- Witness for C3: three concrete pushes into each queue, popped back in
order, and a batch pop on a fresh buffer. -/
theorem fifoAndBatchPop_witness :
    (PopMultiple 1 5 (mkBuffer Int 7)).1 = (mkBuffer Int 7).chunks.take 5
    ∧ (Pop 1 (Push 1 [3] 8000 1 12 (Push 1 [2] 8000 1 11
        (Push 1 [1] 8000 1 10 (mkBuffer Int 50))))).map Prod.fst =
      some ⟨[1], 10, 8000, 1⟩ := by
  have h := fifoAndBatchPop (F := Int) 1 50 5 (mkBuffer Int 7)
    [1] [2] [3] [10] [20] [30]
    8000 8000 8000 1 1 1 10 11 12
    9000 9000 9000 2 2 2 20 21 22
    (by decide) (by decide) (by decide) (by decide) (by decide) (by decide) (by decide)
  exact ⟨h.1.1, h.2.1.1⟩

/-- C4: GetBufferedDurationMs is computed from the PCM16 queue only: the sum
over chunks of data-length / channels, times 1000, divided by the
most-recently-seen sample rate, returning 0 when the queue is empty or that
rate is 0; and the end-to-end scenario: pushing a single 960-sample mono
chunk at 48000 Hz into a fresh buffer gives 20 ms, popping returns that chunk
and leaves the buffer empty. -/
theorem bufferedDurationMsSpec {F : Type} (hdr : Nat) (s : AudioBuffer F)
    (hch : ∀ c ∈ s.chunks, c.channels ≠ 0)
    (hhdr : hdr + 1920 ≤ defaultMaxSizeBytes) :
    GetBufferedDurationMs s =
      some (if s.chunks = [] then 0
        else
          if ((s.chunks.getLast?).map AudioChunk.sampleRate).getD 0 = 0 then 0
          else (s.chunks.map (fun c => c.data.length / c.channels)).sum * 1000 /
            ((s.chunks.getLast?).map AudioChunk.sampleRate).getD 0)
    ∧ GetBufferedDurationMs
        (Push hdr (List.replicate 960 0) 48000 1 0 (mkBuffer F defaultMaxSizeBytes)) = some 20
    ∧ (Pop hdr (Push hdr (List.replicate 960 0) 48000 1 0
        (mkBuffer F defaultMaxSizeBytes))).map Prod.fst =
      some ⟨List.replicate 960 0, 0, 48000, 1⟩
    ∧ IsEmpty (applyOp hdr (Push hdr (List.replicate 960 0) 48000 1 0
        (mkBuffer F defaultMaxSizeBytes)) BufOp.pop) = true := by
  have epush : Push hdr (List.replicate 960 0) 48000 1 0 (mkBuffer F defaultMaxSizeBytes) =
      { chunks := [⟨List.replicate 960 0, 0, 48000, 1⟩], float32Chunks := [], maxSizeBytes := defaultMaxSizeBytes, currentSizeBytes := hdr + 1920 } := by
    rw [Push_no_evict hdr _ 48000 1 0 _ (by simp) (by simp [mkBuffer]; omega)]
    simp [mkBuffer]
  refine ⟨GetBufferedDurationMs_closed s hch, ?_, ?_, ?_⟩
  · rw [epush]
    simp [GetBufferedDurationMs, durationFold]
  · rw [epush]
    simp [Pop]
  · rw [epush]
    simp [applyOp, Pop, IsEmpty]

/-- Witness for C4: the duration formula evaluated on a two-channel chunk and
the 960-sample scenario at a concrete header size. -/
theorem bufferedDurationMsSpec_witness :
    GetBufferedDurationMs ({ chunks := [⟨[1, 2, 3], 5, 8000, 2⟩], float32Chunks := [], maxSizeBytes := 100, currentSizeBytes := 46 } : AudioBuffer Int) = some 0
    ∧ GetBufferedDurationMs
        (Push 40 (List.replicate 960 0) 48000 1 0 (mkBuffer Int defaultMaxSizeBytes)) = some 20 := by
  have h := bufferedDurationMsSpec 40
    ({ chunks := [⟨[1, 2, 3], 5, 8000, 2⟩], float32Chunks := [], maxSizeBytes := 100, currentSizeBytes := 46 } : AudioBuffer Int)
    (by decide) (by decide)
  refine ⟨?_, h.2.1⟩
  rw [h.1]
  decide

/-- C10: Push performs no validation of the channel count, so a chunk with
channels = 0 is reachable; on such a state the per-chunk division in
GetBufferedDurationMs divides by zero (modelled as none), while the zero
guard of that function covers only the sample rate: with non-zero channel
counts the function always produces a value, and a zero sample rate returns
0. -/
theorem durationDivisionByZeroHazard {F : Type} (hdr B rate ts : Nat)
    (d : List Int) (s2 : AudioBuffer F)
    (hne : d ≠ []) (hfit : hdr + d.length * 2 ≤ B)
    (hch2 : ∀ c ∈ s2.chunks, c.channels ≠ 0) :
    (Push hdr d rate 0 ts (mkBuffer F B)).chunks = [⟨d, ts, rate, 0⟩]
    ∧ GetBufferedDurationMs (Push hdr d rate 0 ts (mkBuffer F B)) = none
    ∧ GetBufferedDurationMs s2 ≠ none
    ∧ GetBufferedDurationMs ({ chunks := [⟨d, ts, 0, 1⟩], float32Chunks := [], maxSizeBytes := B, currentSizeBytes := hdr + d.length * 2 } : AudioBuffer F) = some 0 := by
  have epush : Push hdr d rate 0 ts (mkBuffer F B) =
      { chunks := [⟨d, ts, rate, 0⟩], float32Chunks := [], maxSizeBytes := B, currentSizeBytes := hdr + d.length * 2 } := by
    rw [Push_no_evict hdr d rate 0 ts _ hne (by simp [mkBuffer]; omega)]
    simp [mkBuffer]
  refine ⟨by rw [epush], ?_, ?_, ?_⟩
  · rw [epush]
    simp [GetBufferedDurationMs, durationFold]
  · rw [GetBufferedDurationMs_closed s2 hch2]
    simp
  · simp [GetBufferedDurationMs, durationFold]

/-- Witness for C10: a concrete chunk pushed with channels = 0 makes the
duration computation divide by zero, while a channels = 1 state is guarded. -/
theorem durationDivisionByZeroHazard_witness :
    GetBufferedDurationMs (Push 40 [1, 2] 48000 0 7 (mkBuffer Int 100)) = none
    ∧ GetBufferedDurationMs ({ chunks := [⟨[1, 2], 7, 48000, 1⟩], float32Chunks := [], maxSizeBytes := 100, currentSizeBytes := 44 } : AudioBuffer Int) ≠ none := by
  have h := durationDivisionByZeroHazard 40 100 48000 7 [1, 2]
    ({ chunks := [⟨[1, 2], 7, 48000, 1⟩], float32Chunks := [], maxSizeBytes := 100, currentSizeBytes := 44 } : AudioBuffer Int)
    (by decide) (by decide) (by decide)
  exact ⟨h.2.1, h.2.2.1⟩

theorem toInt16_eq_self (z : Int) (hlo : -32768 ≤ z) (hhi : z ≤ 32767) :
    toInt16 z = z := by
  simp only [toInt16]
  omega

theorem stereoPairs_length : ∀ (l : List Int), (stereoPairs l).length = l.length / 2
  | [] => by simp [stereoPairs]
  | [x] => by simp [stereoPairs]
  | x :: y :: rest => by
      simp [stereoPairs, stereoPairs_length rest]
      omega

theorem stereoPairs_getD : ∀ (i : Nat) (l : List Int), 2 * i + 1 < l.length →
    (stereoPairs l).getD i 0 =
      toInt16 (Int.fdiv (l.getD (2 * i) 0 + l.getD (2 * i + 1) 0) 2)
  | _, [], h => by simp at h
  | i, [x], h => by
      simp at h
  | 0, x :: y :: rest, _ => by simp [stereoPairs]
  | Nat.succ i, x :: y :: rest, h => by
      have h' : 2 * i + 1 < rest.length := by
        simp at h
        omega
      have ih := stereoPairs_getD i rest h'
      have e1 : 2 * Nat.succ i = 2 * i + 1 + 1 := by omega
      rw [e1]
      simpa [stereoPairs, List.getD_cons_succ] using ih

theorem getD_mem_of_lt {l : List Int} {n : Nat} (h : n < l.length) :
    l.getD n 0 ∈ l := by
  rw [List.getD_eq_getElem l 0 h]
  exact List.getElem_mem h

theorem decode24_of_and_zero (b0 b1 b2 : Nat)
    (h : (b0 + 256 * b1 + 65536 * b2) &&& 8388608 = 0) :
    decode24 b0 b1 b2 =
      toInt16 (((b0 + 256 * b1 + 65536 * b2 : Nat) : Int).fdiv 256) := by
  simp [decode24, h]

theorem decode24_of_and_ne_zero (b0 b1 b2 : Nat)
    (h : (b0 + 256 * b1 + 65536 * b2) &&& 8388608 ≠ 0) :
    decode24 b0 b1 b2 =
      toInt16 ((((b0 + 256 * b1 + 65536 * b2 : Nat) : Int) - 16777216).fdiv 256) := by
  simp [decode24, h]

/-- C5: 24-bit decoding in ConvertToPCM16: each output sample is obtained by
assembling 3 little-endian bytes, sign-extending the 24-bit value by testing
bit 23, then arithmetically shifting right by 8 bits (a floor division by
256, always within int16 range so the final cast is the identity); the
triplet 0x00,0x00,0x80 decodes to -32768 (negative) and 0xFF,0xFF,0x7F to
32767 (positive); and on a 24-bit mono input the whole conversion maps each
byte triplet through this decoder. -/
theorem decode24BitPath (b0 b1 b2 : Nat) (h0 : b0 < 256) (h1 : b1 < 256) (h2 : b2 < 256)
    (fob : Nat → ℚ) (input : AudioSample) (tr tc : Nat)
    (hbits : input.format.bitsPerSample = 24) (hch : input.format.channels = 1)
    (hne : input.data ≠ []) :
    decode24 b0 b1 b2 =
      (if (b0 + 256 * b1 + 65536 * b2).testBit 23
        then (((b0 + 256 * b1 + 65536 * b2 : Nat) : Int) - 16777216).fdiv 256
        else ((b0 + 256 * b1 + 65536 * b2 : Nat) : Int).fdiv 256)
    ∧ (-32768 ≤ decode24 b0 b1 b2 ∧ decode24 b0 b1 b2 ≤ 32767)
    ∧ decode24 0 0 128 = -32768
    ∧ decode24 255 255 127 = 32767
    ∧ ConvertToPCM16 fob input tr tc =
        (List.range (input.data.length / 3)).map (fun i =>
          decode24 (byteAt input.data (3 * i)) (byteAt input.data (3 * i + 1))
            (byteAt input.data (3 * i + 2))) := by
  have hvlt : b0 + 256 * b1 + 65536 * b2 < 16777216 := by omega
  have hand : (b0 + 256 * b1 + 65536 * b2) &&& 8388608 =
      ((b0 + 256 * b1 + 65536 * b2).testBit 23).toNat * 8388608 := by
    have h := Nat.and_two_pow (b0 + 256 * b1 + 65536 * b2) 23
    norm_num at h
    exact h
  have htbdiv : (b0 + 256 * b1 + 65536 * b2).testBit 23 =
      decide ((b0 + 256 * b1 + 65536 * b2) / 8388608 % 2 = 1) := by
    have h : (b0 + 256 * b1 + 65536 * b2).testBit 23 =
        decide ((b0 + 256 * b1 + 65536 * b2) / 2 ^ 23 % 2 = 1) := Nat.testBit_to_div_mod
    norm_num at h ⊢
    exact h
  have key : decode24 b0 b1 b2 =
      (if (b0 + 256 * b1 + 65536 * b2).testBit 23
        then (((b0 + 256 * b1 + 65536 * b2 : Nat) : Int) - 16777216).fdiv 256
        else ((b0 + 256 * b1 + 65536 * b2 : Nat) : Int).fdiv 256)
      ∧ -32768 ≤ decode24 b0 b1 b2 ∧ decode24 b0 b1 b2 ≤ 32767 := by
    cases htb : (b0 + 256 * b1 + 65536 * b2).testBit 23 with
    | false =>
        have hnm : ¬ ((b0 + 256 * b1 + 65536 * b2) / 8388608 % 2 = 1) := by
          rw [htb] at htbdiv
          exact of_decide_eq_false htbdiv.symm
        have hlt : b0 + 256 * b1 + 65536 * b2 < 8388608 := by omega
        have hzero : (b0 + 256 * b1 + 65536 * b2) &&& 8388608 = 0 := by
          rw [hand, htb]
          rfl
        rw [decode24_of_and_zero b0 b1 b2 hzero,
          Int.fdiv_eq_ediv _ (by norm_num), if_neg (by simp)]
        have hb : -32768 ≤ ((b0 + 256 * b1 + 65536 * b2 : Nat) : Int) / 256 ∧
            ((b0 + 256 * b1 + 65536 * b2 : Nat) : Int) / 256 ≤ 32767 := by omega
        rw [toInt16_eq_self _ hb.1 hb.2]
        exact ⟨rfl, hb.1, hb.2⟩
    | true =>
        have hnm : (b0 + 256 * b1 + 65536 * b2) / 8388608 % 2 = 1 := by
          rw [htb] at htbdiv
          exact of_decide_eq_true htbdiv.symm
        have hge : 8388608 ≤ b0 + 256 * b1 + 65536 * b2 := by omega
        have hnz : (b0 + 256 * b1 + 65536 * b2) &&& 8388608 ≠ 0 := by
          rw [hand, htb]
          norm_num
        rw [decode24_of_and_ne_zero b0 b1 b2 hnz,
          Int.fdiv_eq_ediv _ (by norm_num), if_pos rfl]
        have hb : -32768 ≤ (((b0 + 256 * b1 + 65536 * b2 : Nat) : Int) - 16777216) / 256 ∧
            (((b0 + 256 * b1 + 65536 * b2 : Nat) : Int) - 16777216) / 256 ≤ 32767 := by omega
        rw [toInt16_eq_self _ hb.1 hb.2]
        exact ⟨rfl, hb.1, hb.2⟩
  refine ⟨key.1, key.2, by decide, by decide, ?_⟩
  simp [ConvertToPCM16, isEmpty_false_of_ne_nil hne, decodePCM16Samples, hbits, hch]

/-- Witness for C5: the two boundary byte triplets and a one-sample 24-bit
mono conversion. -/
theorem decode24BitPath_witness :
    decode24 0 0 128 = -32768 ∧ decode24 255 255 127 = 32767
    ∧ ConvertToPCM16 (fun _ => 0)
        ({ data := [0, 0, 128], format := { sampleRate := 48000, channels := 1, bitsPerSample := 24, bytesPerFrame := 3, blockAlign := 3, isFloat := false, isNonInterleaved := false, formatFlags := 0 }, timestamp := 0, frameCount := 1 } : AudioSample)
        48000 1 = [-32768] := by
  have h := decode24BitPath 0 0 128 (by decide) (by decide) (by decide) (fun _ => 0)
    ({ data := [0, 0, 128], format := { sampleRate := 48000, channels := 1, bitsPerSample := 24, bytesPerFrame := 3, blockAlign := 3, isFloat := false, isNonInterleaved := false, formatFlags := 0 }, timestamp := 0, frameCount := 1 } : AudioSample)
    48000 1 rfl rfl (by decide)
  refine ⟨h.2.2.1, h.2.2.2.1, ?_⟩
  rw [h.2.2.2.2]
  decide

/-- C6: Soft failure on unsupported bit depth: on non-empty input whose
bitsPerSample is outside the supported set (16/32 for ConvertToMonoFloat32;
16/24/32 for ConvertToPCM16), the converter returns the empty sequence (the
embedding is a total function: no error is raised). -/
theorem unsupportedBitDepth (fob : Nat → ℚ) (input : AudioSample) (tr tc : Nat)
    (hne : input.data ≠ []) :
    (input.format.bitsPerSample ≠ 16 → input.format.bitsPerSample ≠ 32 →
      ConvertToMonoFloat32 fob input = [])
    ∧ (input.format.bitsPerSample ≠ 16 → input.format.bitsPerSample ≠ 24 →
        input.format.bitsPerSample ≠ 32 → ConvertToPCM16 fob input tr tc = []) := by
  constructor
  · intro h16 h32
    simp [ConvertToMonoFloat32, decodeMonoFloat32Samples, h16, h32]
  · intro h16 h24 h32
    simp [ConvertToPCM16, decodePCM16Samples, h16, h24, h32]

/-- Witness for C6: an 8-bit sample is rejected by both converters. -/
theorem unsupportedBitDepth_witness :
    ConvertToMonoFloat32 (fun _ => 0)
      ({ data := [1, 2], format := { sampleRate := 48000, channels := 1, bitsPerSample := 8, bytesPerFrame := 1, blockAlign := 1, isFloat := false, isNonInterleaved := false, formatFlags := 0 }, timestamp := 0, frameCount := 2 } : AudioSample) = []
    ∧ ConvertToPCM16 (fun _ => 0)
      ({ data := [1, 2], format := { sampleRate := 48000, channels := 1, bitsPerSample := 8, bytesPerFrame := 1, blockAlign := 1, isFloat := false, isNonInterleaved := false, formatFlags := 0 }, timestamp := 0, frameCount := 2 } : AudioSample)
      48000 1 = [] := by
  have h := unsupportedBitDepth (fun _ => 0)
    ({ data := [1, 2], format := { sampleRate := 48000, channels := 1, bitsPerSample := 8, bytesPerFrame := 1, blockAlign := 1, isFloat := false, isNonInterleaved := false, formatFlags := 0 }, timestamp := 0, frameCount := 2 } : AudioSample)
    48000 1 (by decide)
  exact ⟨h.1 (by decide) (by decide), h.2 (by decide) (by decide) (by decide)⟩

/-- C7: Stereo-to-mono downmix in the PCM16 path: when the source has more
than one channel and targetChannels = 1, the conversion applies StereoToMono,
whose output sample i is the average (left + right) >> 1 of adjacent input
pair (2i, 2i+1) — with 16-bit-range inputs the int32 sum cannot overflow and
the final int16 cast is the identity; in particular
StereoToMono [100, 200, -100, -200] = [150, -150]. -/
theorem stereoToMonoDownmix (samples : List Int)
    (heven : samples.length % 2 = 0)
    (hrange : ∀ x ∈ samples, -32768 ≤ x ∧ x ≤ 32767)
    (i : Nat) (hi : 2 * i + 1 < samples.length)
    (fob : Nat → ℚ) (input : AudioSample) (tr : Nat) (dsamples : List Int)
    (hdec : decodePCM16Samples fob input = some dsamples)
    (hne : input.data ≠ []) (hch : 1 < input.format.channels) :
    (StereoToMono samples).length = samples.length / 2
    ∧ (StereoToMono samples).getD i 0 =
        Int.fdiv (samples.getD (2 * i) 0 + samples.getD (2 * i + 1) 0) 2
    ∧ StereoToMono [100, 200, -100, -200] = [150, -150]
    ∧ ConvertToPCM16 fob input tr 1 = StereoToMono dsamples := by
  have hmono : StereoToMono samples = stereoPairs samples := by
    simp [StereoToMono, heven]
  have hr1 := hrange _ (getD_mem_of_lt (n := 2 * i) (by omega))
  have hr2 := hrange _ (getD_mem_of_lt (n := 2 * i + 1) hi)
  have havg : -32768 ≤ Int.fdiv (samples.getD (2 * i) 0 + samples.getD (2 * i + 1) 0) 2 ∧
      Int.fdiv (samples.getD (2 * i) 0 + samples.getD (2 * i + 1) 0) 2 ≤ 32767 := by
    rw [Int.fdiv_eq_ediv _ (by norm_num)]
    omega
  refine ⟨by rw [hmono, stereoPairs_length], ?_, by decide, ?_⟩
  · rw [hmono, stereoPairs_getD i samples hi, toInt16_eq_self _ havg.1 havg.2]
  · simp [ConvertToPCM16, isEmpty_false_of_ne_nil hne, hdec, hch]

/-- Witness for C7: the concrete four-sample average and a 16-bit stereo
sample downmixed through the full conversion. -/
theorem stereoToMonoDownmix_witness :
    (StereoToMono [100, 200, -100, -200]).getD 1 0 =
      Int.fdiv (([100, 200, -100, -200].getD 2 0) + ([100, 200, -100, -200].getD 3 0)) 2
    ∧ ConvertToPCM16 (fun _ => 0)
        ({ data := [10, 0, 20, 0], format := { sampleRate := 48000, channels := 2, bitsPerSample := 16, bytesPerFrame := 4, blockAlign := 4, isFloat := false, isNonInterleaved := false, formatFlags := 0 }, timestamp := 0, frameCount := 1 } : AudioSample)
        48000 1 = StereoToMono [10, 20] := by
  have h := stereoToMonoDownmix [100, 200, -100, -200] (by decide) (by decide) 1 (by decide)
    (fun _ => 0)
    ({ data := [10, 0, 20, 0], format := { sampleRate := 48000, channels := 2, bitsPerSample := 16, bytesPerFrame := 4, blockAlign := 4, isFloat := false, isNonInterleaved := false, formatFlags := 0 }, timestamp := 0, frameCount := 1 } : AudioSample)
    48000 [10, 20] (by decide) (by decide) (by decide)
  exact ⟨h.2.1, h.2.2.2⟩

/-- C8: Full-scale float wraps negative: for every float sample x ≥ 1.0, the
float-to-int16 conversion of ConvertToPCM16 clamps to 1.0, rounds
1.0 * 32768.0 to 32768, and the int16 cast reduces 32768 modulo 2^16 to
-32768 — not the positive full scale 32767. -/
theorem floatFullScaleWraps (x : ℚ) (hx : 1 ≤ x) :
    floatSampleToInt16 x = -32768
    ∧ roundHalfEven (max (-1 : ℚ) (min 1 x) * 32768) = 32768
    ∧ FloatToInt16 [x] = [-32768] := by
  have hmin : min (1 : ℚ) x = 1 := min_eq_left hx
  have hmax : max (-1 : ℚ) (1 : ℚ) = 1 := by norm_num
  have hrnd : roundHalfEven ((1 : ℚ) * 32768) = 32768 := by
    have hfl : ⌊(32768 : ℚ)⌋ = 32768 := by norm_num
    rw [one_mul]
    simp only [roundHalfEven, hfl]
    norm_num
  have hone : floatSampleToInt16 x = toInt16 (roundHalfEven ((1 : ℚ) * 32768)) := by
    simp [floatSampleToInt16, hmin, hmax]
  have hval : floatSampleToInt16 x = -32768 := by
    rw [hone, hrnd]
    decide
  refine ⟨hval, ?_, ?_⟩
  · rw [hmin, hmax, hrnd]
  · simp [FloatToInt16, hval]

/-- Witness for C8: a concrete over-full-scale sample. -/
theorem floatFullScaleWraps_witness :
    floatSampleToInt16 (3 / 2 : ℚ) = -32768 ∧ FloatToInt16 [(3 / 2 : ℚ)] = [-32768] := by
  have h := floatFullScaleWraps (3 / 2) (by norm_num)
  exact ⟨h.1, h.2.2⟩

/-- C9: Odd-length stereo input is discarded whole: StereoToMono returns the
empty sequence on every odd-length input — no truncation to complete pairs,
every sample is dropped. -/
theorem oddLengthStereoDiscarded (l : List Int) (h : l.length % 2 = 1) :
    StereoToMono l = [] ∧ (StereoToMono l).length = 0 := by
  have he : StereoToMono l = [] := by
    simp [StereoToMono, h]
  exact ⟨he, by rw [he]; rfl⟩

/-- Witness for C9: a three-sample input yields nothing. -/
theorem oddLengthStereoDiscarded_witness :
    StereoToMono [100, 200, 300] = [] :=
  (oddLengthStereoDiscarded [100, 200, 300] (by decide)).1

end AudioCapture
